import Mathlib

/-!
# Verification of `onlykey_agent/client.py`

A shallow embedding of the client module of the onlykey-agent repository:
the SSH-blob decoder, the identity-string parser, the raw-device-buffer
public-key classification, the challenge-payload and confirmation-code
derivation, and the bounded polling loops of the device session controller.

Bytes are modelled as `Nat` (a faithful byte is `< 256`; hypotheses state
this where a theorem needs it).  The external SHA-256 function from
`hashlib` is modelled as an explicit function parameter `sha`, since it is
a library collaborator outside this repository; the properties the code
relies on (32-byte output of byte values) appear as hypotheses.  The
external USB transport is modelled as a stream of responses
`reads : Nat → List Nat`, one entry per `read_bytes` call.
-/

namespace OnlyKeyAgent

/-- Lower-case hex digit for a value `0..15`, as produced by Python's
`hexdigest()`. -/
def hexDigit (n : Nat) : Char :=
  if n < 10 then Char.ofNat (48 + n) else Char.ofNat (97 + (n - 10))

/-- Hex-encode a byte string (two lower-case hex chars per byte); this is
`hashlib`'s `hexdigest` applied to the raw digest bytes. -/
def hexEncode (bs : List Nat) : List Char :=
  bs.flatMap (fun b => [hexDigit (b / 16), hexDigit (b % 16)])

/-- Value of one hex character, upper or lower case, as accepted by
Python's `str.decode("hex")`. -/
def hexVal (c : Char) : Option Nat :=
  if 48 ≤ c.toNat ∧ c.toNat ≤ 57 then some (c.toNat - 48)
  else if 97 ≤ c.toNat ∧ c.toNat ≤ 102 then some (c.toNat - 97 + 10)
  else if 65 ≤ c.toNat ∧ c.toNat ≤ 70 then some (c.toNat - 65 + 10)
  else none

/-- Python's `str.decode("hex")`: pairs of hex chars to bytes, failing on
an odd length or a non-hex character. -/
def hexDecode : List Char → Option (List Nat)
  | [] => some []
  | [_] => none
  | c1 :: c2 :: rest =>
    match hexVal c1, hexVal c2, hexDecode rest with
    | some h, some l, some bs => some ((16 * h + l) :: bs)
    | _, _, _ => none

/-! ## Public-key decoding of the raw device buffer -/

/-- Tagged public key decoded from a raw device response (the `PublicKey`
variant of the data model). -/
inductive PubKey where
  | ed25519 (key : List Nat)
  | nist256 (point : List Nat)
  deriving DecidableEq, Repr

/-- Python slice `b[i:j]` (for `i ≤ j`). -/
def slice (b : List Nat) (i j : Nat) : List Nat := (b.drop i).take (j - i)

/-- `len(set(l))`: the number of distinct elements of `l`. -/
def setSize (l : List Nat) : Nat := l.dedup.length

/-- Raw-device-buffer key classification inside `get_public_key`
(client.py lines 77-86): if `len(set(ok_pubkey[34:63])) == 1` the buffer is
Ed25519 and `ok_pubkey[0:32]` is the verifying key, otherwise it is
ECDSA-NIST256 and `ok_pubkey[0:64]` is the raw point.  The external key
constructors (`ed25519.VerifyingKey`, `ecdsa.VerifyingKey.from_string` with
curve `NIST256p`) reject key material of the wrong length (32 resp. 64
bytes — the spec's `UnsupportedKeyEncoding`), modelled by the length
guards; `none` models that exception. -/
def classify_pubkey (b : List Nat) : Option PubKey :=
  if setSize (slice b 34 63) = 1 then
    if (slice b 0 32).length = 32 then some (.ed25519 (slice b 0 32)) else none
  else
    if (slice b 0 64).length = 64 then some (.nist256 (slice b 0 64)) else none

/-- The read loop of `get_public_key` (client.py lines 70-73), unrolled:
`for _ in xrange(2): ok_pubkey = self.ok.read_bytes(64, ...); if
len(ok_pubkey) == 64: break`.  At most two transport reads happen, and
when the first read is not 64 bytes long the loop leaves `ok_pubkey` equal
to the second read, whatever its length. -/
def read_pubkey_loop (reads : Nat → List Nat) : List Nat :=
  if (reads 0).length = 64 then reads 0 else reads 1

/-- Modelled from the spec: the `formats` module is not part of the
sources; `formats.CURVE_NIST256` is the name of the NIST256 curve.  Only
its comparison with the configured curve matters here. -/
def CURVE_NIST256 : String := "nist256"

/-- The get-public-key request payload (client.py lines 57-65):
`sha256(label).hexdigest()` prefixed with the string `"02"` when the
configured curve is NIST256 and `"01"` otherwise, then `decode("hex")`. -/
def getkey_payload (sha : List Nat → List Nat) (curve : String) (label : List Nat) :
    Option (List Nat) :=
  hexDecode ((if curve = CURVE_NIST256 then ['0', '2'] else ['0', '1']) ++ hexEncode (sha label))

/-- `get_public_key` (client.py lines 53-86): build the payload, send it,
read up to two 64-byte responses, classify the final buffer.  The result
pairs the request payload with the decoded key; `none` models an
exception. -/
def get_public_key (sha : List Nat → List Nat) (curve : String) (label : List Nat)
    (reads : Nat → List Nat) : Option (List Nat × PubKey) :=
  match getkey_payload sha curve label with
  | none => none
  | some payload => (classify_pubkey (read_pubkey_loop reads)).map (fun k => (payload, k))

/-! ## SSH blob framing -/

/-- The length encoded by a 4-byte big-endian prefix. -/
def frameLen : List Nat → Nat
  | [a, b, c, d] => ((a * 256 + b) * 256 + c) * 256 + d
  | _ => 0

/-- Big-endian 4-byte encoding of a frame length (the SSH wire framing of
the spec's external-interface section). -/
def be32 (n : Nat) : List Nat :=
  [n / 16777216 % 256, n / 65536 % 256, n / 256 % 256, n % 256]

/-- Modelled from the spec: `util.read_frame` (the `util` module is not
part of the sources) reads one length-prefixed frame — a 4-byte big-endian
unsigned length followed by exactly that many bytes — returning the frame
body and the remaining input, and failing when the declared length exceeds
the remaining bytes. -/
def read_frame (s : List Nat) : Option (List Nat × List Nat) :=
  if 4 ≤ s.length then
    if frameLen (s.take 4) ≤ (s.drop 4).length then
      some ((s.drop 4).take (frameLen (s.take 4)), (s.drop 4).drop (frameLen (s.take 4)))
    else none
  else none

/-- The fields of an SSH authentication request (the `SSHAuthRequest` of
the data model), named as in `_parse_ssh_blob`.  `public_key` holds the
raw public-key frame, the exact byte sequence the source hands to
`formats.parse_pubkey` (a module outside the sources). -/
structure SSHAuthRequest where
  nonce : List Nat
  user : List Nat
  conn : List Nat
  auth : List Nat
  key_type : List Nat
  public_key : List Nat
  deriving DecidableEq, Repr

/-- `_parse_ssh_blob` (client.py lines 160-173): length-prefixed frames in
strict order `nonce`, one reserved byte, `user`, `conn`, `auth`, one
reserved byte, `key_type`, public-key frame; the final `assert not
i.read()` makes any leftover byte a failure.  `i.read(1)` is modelled by
`List.drop 1`, which — like the Python call — consumes at most one byte
and never fails. -/
def _parse_ssh_blob (data : List Nat) : Option SSHAuthRequest :=
  match read_frame data with
  | none => none
  | some (nonce, r1) =>
    match read_frame (r1.drop 1) with
    | none => none
    | some (user, r3) =>
      match read_frame r3 with
      | none => none
      | some (conn, r4) =>
        match read_frame r4 with
        | none => none
        | some (auth, r5) =>
          match read_frame (r5.drop 1) with
          | none => none
          | some (key_type, r7) =>
            match read_frame r7 with
            | none => none
            | some (public_key, r8) =>
              if r8 = [] then some ⟨nonce, user, conn, auth, key_type, public_key⟩
              else none

/-- One length-prefixed frame, as the spec's round-trip property encodes a
synthetic request: 4-byte big-endian length, then the bytes. -/
def encode_frame (f : List Nat) : List Nat := be32 f.length ++ f

/-- The synthetic blob encoder of the spec's round-trip property: the
frames in the order `_parse_ssh_blob` reads them, with the two reserved
bytes `m` (message-type marker) and `s` (has-signature flag). -/
def encode_ssh_blob (r : SSHAuthRequest) (m s : Nat) : List Nat :=
  encode_frame r.nonce ++ [m] ++ encode_frame r.user ++ encode_frame r.conn ++
    encode_frame r.auth ++ [s] ++ encode_frame r.key_type ++ encode_frame r.public_key

/-! ## Challenge-code derivation and sign polling -/

/-- The button-mapping function `get_button` of `sign_ssh_challenge`
(client.py lines 115-119): `1` for byte values below 6, otherwise
`byte % 5 + 1`. -/
def get_button (byte : Nat) : Nat := if byte < 6 then 1 else byte % 5 + 1

/-- The sign-request payload (client.py lines 102-107): the blob followed
by `sha256(label).hexdigest().decode("hex")` — the raw digest bytes with
no curve-indicator prefix. -/
def sign_payload (sha : List Nat → List Nat) (label blob : List Nat) : Option (List Nat) :=
  (hexDecode (hexEncode (sha label))).map (fun d => blob ++ d)

/-- The three confirmation digits (client.py line 121): `get_button` at
digest offsets 0, 15 and 31 (in the source the digest has exactly 32
bytes by the preceding assert, so the offsets are in range). -/
def challenge_digits (d : List Nat) : Nat × Nat × Nat :=
  (get_button (d.getD 0 0), get_button (d.getD 15 0), get_button (d.getD 31 0))

/-- The zero-padding loop of `sign_ssh_challenge` (client.py lines
134-135): `while len(result) < 64: result.append(0)`. -/
def pad64 (l : List Nat) : List Nat := l ++ List.replicate (64 - l.length) 0

/-- The response polling loop of `sign_ssh_challenge` (client.py lines
130-138): up to `attempts` reads starting at stream position `i`; the
first response of length at least 60 is zero-padded to 64 bytes and
returned; `none` models the final `raise` once the budget is
exhausted. -/
def poll_sign (reads : Nat → List Nat) (i attempts : Nat) : Option (List Nat) :=
  match attempts with
  | 0 => none
  | n + 1 =>
    if 60 ≤ (reads i).length then some (pad64 (reads i)) else poll_sign reads (i + 1) n

/-- The externally visible interactions of `sign_ssh_challenge` before
polling: the payload sent with `OKSIGNCHALLENGE` and the confirmation
code displayed to the user. -/
inductive Action where
  | send (payload : List Nat)
  | display (code : Nat × Nat × Nat)
  deriving DecidableEq, Repr

/-- `sign_ssh_challenge` (client.py lines 89-138): decode the blob first
(a failure there propagates before any device interaction), derive the
payload and confirmation digits, send the payload and display the code,
then poll for a signature of at least 60 bytes.  The result pairs the
interaction trace with the returned signature; an empty trace with `none`
models an exception raised before anything was sent. -/
def sign_ssh_challenge (sha : List Nat → List Nat) (label blob : List Nat)
    (reads : Nat → List Nat) : List Action × Option (List Nat) :=
  match _parse_ssh_blob blob with
  | none => ([], none)
  | some _msg =>
    match hexDecode (hexEncode (sha label)) with
    | none => ([], none)
    | some d32 =>
      let test_payload := blob ++ d32
      let d := sha test_payload
      if d.length = 32 then
        ([.send test_payload, .display (challenge_digits d)], poll_sign reads 0 10)
      else ([], none)

/-! ## Session entry -/

/-- The `while not empty` loop of `Client.__enter__` (client.py lines
34-36), with Python's truthiness: the guard holds exactly when `empty` is
the empty string.  `i` counts `read_string` calls performed so far (each
iteration consumes the next stream entry), `fuel` bounds the unbounded
while loop.  Returns the total number of reads and the final `empty`. -/
def enter_while (stream : Nat → String) : Nat → Nat → String → Nat × String
  | 0, i, empty => (i, empty)
  | fuel + 1, i, empty =>
    if empty = "" then enter_while stream fuel (i + 1) (stream i) else (i, empty)

/-- `Client.__enter__` (client.py lines 31-37): one discarded
`read_string`, then `empty = 'a'` and the `while not empty` loop. -/
def client_enter (stream : Nat → String) (fuel : Nat) : Nat × String :=
  enter_while stream fuel 1 "a"

/-! ## Identity parsing

`_identity_regexp` (client.py lines 140-148) is the anchored Python 2
pattern `^(?:(?P<proto>.*)://)?(?:(?P<user>.*)@)?(?P<host>.*?)`
`(?::(?P<port>\w*))?(?P<path>/.*)?$`.  The functions below implement the
backtracking search of Python's `re` engine specialised to this pattern,
preserving its semantics: `.` matches every character except a newline;
`\w` (no `re.UNICODE` flag on a byte string) is ASCII letters, digits and
underscore; `$` matches at the end of the string or just before a single
trailing newline; a greedy piece tries longer matches first, the lazy
`host` tries shorter matches first, and an optional group is tried before
being skipped.  The first full match in this order fixes the captures. -/

/-- Python's `.` outside DOTALL mode: any character except a newline. -/
def dotChar (c : Char) : Bool := c != '\n'

/-- Python 2's `\w` on a byte string without `re.UNICODE`: ASCII letters,
digits and underscore. -/
def wordChar (c : Char) : Bool :=
  (65 ≤ c.toNat && c.toNat ≤ 90) || (97 ≤ c.toNat && c.toNat ≤ 122) ||
  (48 ≤ c.toNat && c.toNat ≤ 57) || (c == '_')

/-- Python's `$`: the end of the string, or just before one trailing
newline. -/
def dollar (s : List Char) : Bool := s.isEmpty || s == ['\n']

/-- First success of `f` over the candidates `ks`, in order: the
backtracking preference order of one starred piece. -/
def firstSome {α : Type} (ks : List Nat) (f : Nat → Option α) : Option α :=
  match ks with
  | [] => none
  | k :: rest =>
    match f k with
    | some v => some v
    | none => firstSome rest f

/-- Candidate lengths for a greedy `.*`-like piece over `s` whose characters
satisfy `p`: longest run first, down to the empty match. -/
def greedyKs (p : Char → Bool) (s : List Char) : List Nat :=
  (List.range ((s.takeWhile p).length + 1)).reverse

/-- Candidate lengths for the lazy `.*?` piece: shortest first. -/
def lazyKs (p : Char → Bool) (s : List Char) : List Nat :=
  List.range ((s.takeWhile p).length + 1)

/-- The preference of an optional group `(?:X)?`: the attempts with the
group present are tried before the group is skipped. -/
def orElseO {α : Type} (present fallback : Option α) : Option α :=
  match present with
  | some r => some r
  | none => fallback

/-- `(?P<path>/.*)?$`: try the path group (greedy, `/` then `.*`), then the
skip; then `$` must hold. -/
def tryPath (s : List Char) : Option (Option (List Char)) :=
  orElseO
    (match s with
     | c :: t =>
       if c = '/' then
         firstSome (greedyKs dotChar t) (fun k =>
           if dollar (t.drop k) then some (some (c :: t.take k)) else none)
       else none
     | [] => none)
    (if dollar s then some none else none)

/-- `(?::(?P<port>\w*))? (?P<path>/.*)?$`: try the port group (literal `:`
then greedy `\w*`), then the skip. -/
def tryPort (s : List Char) : Option (Option (List Char) × Option (List Char)) :=
  orElseO
    (match s with
     | c :: t =>
       if c = ':' then
         firstSome (greedyKs wordChar t) (fun k =>
           (tryPath (t.drop k)).map (fun path => (some (t.take k), path)))
       else none
     | [] => none)
    ((tryPath s).map (fun path => (none, path)))

/-- `(?P<host>.*?) ...`: the lazy host group, shortest prefix first. -/
def tryHost (s : List Char) : Option (List Char × Option (List Char) × Option (List Char)) :=
  firstSome (lazyKs dotChar s) (fun k =>
    (tryPort (s.drop k)).map (fun pp => (s.take k, pp.1, pp.2)))

/-- `(?:(?P<user>.*)@)? ...`: try the user group (greedy `.*` then literal
`@`), then the skip. -/
def tryUser (s : List Char) :
    Option (Option (List Char) × List Char × Option (List Char) × Option (List Char)) :=
  orElseO
    (firstSome (greedyKs dotChar s) (fun k =>
      match s.drop k with
      | c :: t => if c = '@' then (tryHost t).map (fun h => (some (s.take k), h)) else none
      | [] => none))
    ((tryHost s).map (fun h => (none, h)))

/-- The named captures of a full match of `_identity_regexp`
(`m.groupdict()`): the groups inside unmatched optional parts are `none`,
the always-participating `host` is a possibly empty string. -/
structure IdentityMatch where
  proto : Option (List Char)
  user : Option (List Char)
  host : List Char
  port : Option (List Char)
  path : Option (List Char)
  deriving DecidableEq, Repr

/-- `_identity_regexp.match(s)`: `(?:(?P<proto>.*)://)?` (greedy `.*`, then
literal `://`), then the user/host/port/path pieces; `none` models a
failed match (`m is None`). -/
def _identity_regexp_match (s : List Char) : Option IdentityMatch :=
  orElseO
    (firstSome (greedyKs dotChar s) (fun k =>
      match s.drop k with
      | c1 :: c2 :: c3 :: t =>
        if c1 = ':' ∧ c2 = '/' ∧ c3 = '/' then
          (tryUser t).map (fun u => ⟨some (s.take k), u.1, u.2.1, u.2.2.1, u.2.2.2⟩)
        else none
      | _ => none))
    ((tryUser s).map (fun u => ⟨none, u.1, u.2.1, u.2.2.1, u.2.2.2⟩))

/-- The result of `string_to_identity` with the default `identity_type =
dict`: one optional entry per named group. -/
structure Identity where
  proto : Option String
  user : Option String
  host : Option String
  port : Option String
  path : Option String
  deriving DecidableEq, Repr

/-- The comprehension `{k: v for k, v in result.items() if v}` (client.py
line 156): Python truthiness drops both `None` and the empty string. -/
def keepTruthy (v : Option (List Char)) : Option String :=
  match v with
  | none => none
  | some [] => none
  | some cs => some (String.mk cs)

/-- `string_to_identity` (client.py lines 151-157): match the anchored
pattern, take `m.groupdict()`, keep only truthy values.  `none` models the
`AttributeError` the source raises on `m.groupdict()` when the match
failed. -/
def string_to_identity (s : String) : Option Identity :=
  (_identity_regexp_match s.toList).map (fun m =>
    ⟨keepTruthy m.proto, keepTruthy m.user, keepTruthy (some m.host),
     keepTruthy m.port, keepTruthy m.path⟩)

/-! ## Theorems -/

theorem hexVal_hexDigit {n : Nat} (h : n < 16) : hexVal (hexDigit n) = some n := by
  interval_cases n <;> decide

/-- `decode("hex")` is a left inverse of hex-encoding on byte values. -/
theorem hexDecode_hexEncode (bs : List Nat) (h : ∀ b ∈ bs, b < 256) :
    hexDecode (hexEncode bs) = some bs := by
  induction bs with
  | nil => rfl
  | cons b rest ih =>
    have hb : b < 256 := h b (List.mem_cons_self ..)
    have hhi : b / 16 < 16 := Nat.div_lt_of_lt_mul (by omega)
    have hlo : b % 16 < 16 := Nat.mod_lt _ (by omega)
    have hrest : hexDecode (hexEncode rest) = some rest :=
      ih (fun x hx => h x (List.mem_cons_of_mem _ hx))
    have hform : hexEncode (b :: rest)
        = hexDigit (b / 16) :: hexDigit (b % 16) :: hexEncode rest := rfl
    rw [hform]
    simp only [hexDecode, hexVal_hexDigit hhi, hexVal_hexDigit hlo, hrest]
    rw [Nat.div_add_mod b 16]

theorem setSize_eq_one_iff (l : List Nat) :
    setSize l = 1 ↔ l ≠ [] ∧ ∀ x ∈ l, ∀ y ∈ l, x = y := by
  constructor
  · intro h
    obtain ⟨a, ha⟩ := List.length_eq_one.mp h
    have hmem : ∀ x ∈ l, x = a := by
      intro x hx
      have hxd : x ∈ l.dedup := List.mem_dedup.mpr hx
      rw [ha] at hxd
      simpa using hxd
    refine ⟨?_, ?_⟩
    · intro hnil
      rw [hnil] at ha
      simp [List.dedup] at ha
    · intro x hx y hy
      rw [hmem x hx, hmem y hy]
  · rintro ⟨hne, hall⟩
    have hsub : ∀ x ∈ l.dedup, x ∈ l := fun x hx => List.mem_dedup.mp hx
    have hnodup : l.dedup.Nodup := l.nodup_dedup
    obtain ⟨b, hb⟩ := List.exists_mem_of_ne_nil l hne
    have hbd : b ∈ l.dedup := List.mem_dedup.mpr hb
    unfold setSize
    rcases hd : l.dedup with _ | ⟨x, _ | ⟨y, t⟩⟩
    · rw [hd] at hbd
      simp at hbd
    · rfl
    · rw [hd] at hsub hnodup
      have hxy : x = y := hall x (hsub x (by simp)) y (hsub y (by simp))
      rw [List.nodup_cons] at hnodup
      exact absurd (by simp [hxy]) hnodup.1

/-- The window `b[34:63]` reads the entries of `b` at offsets `34..62`. -/
theorem slice_34_63_getElem (b : List Nat) (_hlen : b.length = 64) (m : Nat) (hm : m < 29) :
    (slice b 34 63)[m]? = b[34 + m]? := by
  unfold slice
  rw [List.getElem?_take_of_lt (by omega), List.getElem?_drop]

theorem mem_slice_34_63 (b : List Nat) (hlen : b.length = 64) (x : Nat) :
    x ∈ slice b 34 63 ↔ ∃ k, 34 ≤ k ∧ k ≤ 62 ∧ b[k]? = some x := by
  constructor
  · intro hx
    obtain ⟨m, hm⟩ := List.mem_iff_getElem?.mp hx
    have hmlt : m < 29 := by
      by_contra hge
      rw [List.getElem?_eq_none] at hm
      · exact Option.noConfusion hm
      · unfold slice
        simp only [List.length_take, List.length_drop, hlen]
        omega
    refine ⟨34 + m, by omega, by omega, ?_⟩
    rw [← slice_34_63_getElem b hlen m hmlt]
    exact hm
  · rintro ⟨k, hk1, hk2, hk⟩
    apply List.mem_iff_getElem?.mpr
    refine ⟨k - 34, ?_⟩
    rw [slice_34_63_getElem b hlen (k - 34) (by omega)]
    have : 34 + (k - 34) = k := by omega
    rw [this]
    exact hk

/-- C1: for every 64-byte device response buffer `b`, the raw-buffer key
classification decides Ed25519 exactly when the 29 bytes at offsets 34..62
inclusive are all identical, and then the decoded key material is bytes
0..31 of `b`; otherwise it decides ECDSA-NIST256 and the key material is
all 64 bytes of `b`. -/
theorem raw_buffer_key_classification (b : List Nat) (hlen : b.length = 64) :
    (classify_pubkey b = some (.ed25519 (b.take 32)) ↔
      ∀ i, i < 29 → ∀ j, j < 29 → b[34 + i]? = b[34 + j]?) ∧
    ((¬ ∀ i, i < 29 → ∀ j, j < 29 → b[34 + i]? = b[34 + j]?) →
      classify_pubkey b = some (.nist256 b)) := by
  have h32 : slice b 0 32 = b.take 32 := rfl
  have hlen32 : (b.take 32).length = 32 := by simp [hlen]
  have h64 : slice b 0 64 = b := by
    unfold slice
    rw [List.drop_zero]
    exact List.take_of_length_le (by omega)
  have hed : setSize (slice b 34 63) = 1 → classify_pubkey b = some (.ed25519 (b.take 32)) := by
    intro hc
    unfold classify_pubkey
    rw [if_pos hc, h32, if_pos hlen32]
  have hec : setSize (slice b 34 63) ≠ 1 → classify_pubkey b = some (.nist256 b) := by
    intro hc
    unfold classify_pubkey
    rw [if_neg hc, h64, if_pos hlen]
  have hcond : setSize (slice b 34 63) = 1 ↔
      (∀ i, i < 29 → ∀ j, j < 29 → b[34 + i]? = b[34 + j]?) := by
    rw [setSize_eq_one_iff]
    constructor
    · rintro ⟨-, hall⟩ i hi j hj
      have hib : 34 + i < b.length := by omega
      have hjb : 34 + j < b.length := by omega
      rw [List.getElem?_eq_getElem hib, List.getElem?_eq_getElem hjb]
      have hxi : b[34 + i] ∈ slice b 34 63 :=
        (mem_slice_34_63 b hlen _).mpr ⟨34 + i, by omega, by omega, List.getElem?_eq_getElem hib⟩
      have hxj : b[34 + j] ∈ slice b 34 63 :=
        (mem_slice_34_63 b hlen _).mpr ⟨34 + j, by omega, by omega, List.getElem?_eq_getElem hjb⟩
      exact congrArg some (hall _ hxi _ hxj)
    · intro hall
      refine ⟨?_, ?_⟩
      · intro hnil
        have hsl : (slice b 34 63).length = 29 := by
          unfold slice
          simp [hlen]
        rw [hnil] at hsl
        simp at hsl
      · intro x hx y hy
        obtain ⟨k, hk1, hk2, hk⟩ := (mem_slice_34_63 b hlen x).mp hx
        obtain ⟨m, hm1, hm2, hm⟩ := (mem_slice_34_63 b hlen y).mp hy
        have heq := hall (k - 34) (by omega) (m - 34) (by omega)
        have hks : 34 + (k - 34) = k := by omega
        have hms : 34 + (m - 34) = m := by omega
        rw [hks, hms, hk, hm] at heq
        exact Option.some.inj heq
  refine ⟨⟨?_, fun hall => hed (hcond.mpr hall)⟩, fun hns => hec (fun hc => hns (hcond.mp hc))⟩
  intro hcls
  by_contra hns
  have hne : setSize (slice b 34 63) ≠ 1 := fun hc => hns (hcond.mp hc)
  rw [hec hne] at hcls
  exact PubKey.noConfusion (Option.some.inj hcls)

/-- Witness for `raw_buffer_key_classification` at the all-sevens buffer:
the padding window is uniform, so the buffer decodes as Ed25519 with the
first 32 bytes as key material. -/
theorem raw_buffer_key_classification_witness :
    classify_pubkey (List.replicate 64 7) = some (.ed25519 ((List.replicate 64 7).take 32)) :=
  (raw_buffer_key_classification (List.replicate 64 7) (by decide)).1.mpr (by decide)

theorem hexVal_c0 : hexVal '0' = some 0 := by decide

theorem hexVal_c1 : hexVal '1' = some 1 := by decide

theorem hexVal_c2 : hexVal '2' = some 2 := by decide

/-- C5: for every label, the get-key payload is the raw SHA-256 digest of
the label (hex-encoded and decoded back) prefixed with a single
curve-indicator byte — `0x02` for NIST256, `0x01` for any other configured
curve — 33 bytes total. -/
theorem getkey_payload_prefixed_digest (sha : List Nat → List Nat) (curve : String)
    (label : List Nat) (hbytes : ∀ b ∈ sha label, b < 256)
    (hlen : (sha label).length = 32) :
    getkey_payload sha curve label =
      some ((if curve = CURVE_NIST256 then 2 else 1) :: sha label) ∧
    ∀ p, getkey_payload sha curve label = some p → p.length = 33 := by
  have hdec : hexDecode (hexEncode (sha label)) = some (sha label) :=
    hexDecode_hexEncode _ hbytes
  have hmain : getkey_payload sha curve label =
      some ((if curve = CURVE_NIST256 then 2 else 1) :: sha label) := by
    unfold getkey_payload
    by_cases hcurve : curve = CURVE_NIST256
    · rw [if_pos hcurve, if_pos hcurve]
      show hexDecode ('0' :: '2' :: hexEncode (sha label)) = some (2 :: sha label)
      simp [hexDecode, hexVal_c0, hexVal_c2, hdec]
    · rw [if_neg hcurve, if_neg hcurve]
      show hexDecode ('0' :: '1' :: hexEncode (sha label)) = some (1 :: sha label)
      simp [hexDecode, hexVal_c0, hexVal_c1, hdec]
  refine ⟨hmain, fun p hp => ?_⟩
  rw [hmain] at hp
  have hpe := Option.some.inj hp
  rw [← hpe]
  simp [hlen]

/-- Witness for `getkey_payload_prefixed_digest`: a 32-byte dummy digest
with the NIST256 curve yields the `0x02`-prefixed payload. -/
theorem getkey_payload_prefixed_digest_witness :
    getkey_payload (fun _ => List.replicate 32 171) "nist256" [] =
      some ((if "nist256" = CURVE_NIST256 then 2 else 1) :: List.replicate 32 171) :=
  (getkey_payload_prefixed_digest (fun _ => List.replicate 32 171) "nist256" []
    (by decide) (by decide)).1

/-- C4 counterexample: a transport that always answers with a 63-byte
all-zero buffer never returns a full 64-byte response, yet `get_public_key`
does not fail: the padding window of the short buffer is uniform, so it is
classified as Ed25519 and a decoded key is returned.  No `DeviceTimeout`
failure occurs. -/
theorem get_public_key_no_timeout_counterexample :
    (∀ i : Nat, ((fun _ : Nat => List.replicate 63 0) i).length ≠ 64) ∧
    get_public_key (fun _ => List.replicate 32 171) "nist256" []
        (fun _ => List.replicate 63 0) =
      some (2 :: List.replicate 32 171, .ed25519 (List.replicate 32 0)) := by
  constructor
  · intro i
    exact (by decide : (List.replicate 63 0).length ≠ 64)
  · decide

/-- C4 amended: if the transport never returns a full 64-byte response,
`get_public_key` stops after exactly the two configured attempts, its
outcome determined by the second read; no `DeviceTimeout` is raised —
classification proceeds on the short buffer, and returns `none` only
because the downstream key constructors reject the material (in
particular whenever the final buffer is shorter than 32 bytes), while a
suitably padded 63-byte buffer still decodes successfully. -/
theorem get_public_key_short_response (sha : List Nat → List Nat) (curve : String)
    (label : List Nat) (reads : Nat → List Nat) (h : ∀ i, (reads i).length ≠ 64) :
    read_pubkey_loop reads = reads 1 ∧
    ((reads 1).length < 32 → get_public_key sha curve label reads = none) := by
  have hloop : read_pubkey_loop reads = reads 1 := by
    unfold read_pubkey_loop
    rw [if_neg (h 0)]
  refine ⟨hloop, fun hshort => ?_⟩
  have hclass : classify_pubkey (reads 1) = none := by
    unfold classify_pubkey
    have hsl : slice (reads 1) 34 63 = [] := by
      unfold slice
      rw [List.drop_eq_nil_of_le (by omega)]
      rfl
    rw [hsl]
    rw [if_neg (by decide : ¬ setSize [] = 1)]
    have hne : (slice (reads 1) 0 64).length ≠ 64 := by
      unfold slice
      simp only [List.drop_zero, List.length_take]
      omega
    rw [if_neg hne]
  unfold get_public_key
  cases hp : getkey_payload sha curve label with
  | none => rfl
  | some payload =>
    rw [read_pubkey_loop] at hloop
    unfold read_pubkey_loop
    rw [hloop, hclass]
    rfl

/-- Witness for `get_public_key_short_response`: a transport that always
returns the empty read. -/
theorem get_public_key_short_response_witness :
    read_pubkey_loop (fun _ => []) = (fun _ : Nat => ([] : List Nat)) 1 ∧
    get_public_key (fun _ => List.replicate 32 171) "nist256" [] (fun _ => []) = none := by
  have h := get_public_key_short_response (fun _ => List.replicate 32 171) "nist256" []
    (fun _ => []) (fun i => (by decide : ([] : List Nat).length ≠ 64))
  exact ⟨h.1, h.2 (by decide)⟩

theorem frameLen_be32 (n : Nat) (h : n < 4294967296) : frameLen (be32 n) = n := by
  show ((n / 16777216 % 256 * 256 + n / 65536 % 256) * 256 + n / 256 % 256) * 256 + n % 256 = n
  omega

theorem read_frame_encode (f t : List Nat) (h : f.length < 4294967296) :
    read_frame (encode_frame f ++ t) = some (f, t) := by
  unfold read_frame encode_frame
  rw [List.append_assoc,
      List.take_left' (show (be32 f.length).length = 4 from rfl),
      List.drop_left' (show (be32 f.length).length = 4 from rfl),
      frameLen_be32 _ h, List.take_left, List.drop_left]
  rw [if_pos (by simp [be32]), if_pos (by simp)]

theorem parse_encode_aux (r : SSHAuthRequest) (m s : Nat) (rest : List Nat)
    (h1 : r.nonce.length < 4294967296) (h2 : r.user.length < 4294967296)
    (h3 : r.conn.length < 4294967296) (h4 : r.auth.length < 4294967296)
    (h5 : r.key_type.length < 4294967296) (h6 : r.public_key.length < 4294967296) :
    _parse_ssh_blob (encode_ssh_blob r m s ++ rest) =
      if rest = [] then some r else none := by
  obtain ⟨n, u, c, a, k, p⟩ := r
  simp only at h1 h2 h3 h4 h5 h6
  unfold encode_ssh_blob _parse_ssh_blob
  simp only [List.append_assoc, List.singleton_append, List.cons_append, List.nil_append]
  simp only [read_frame_encode _ _ h1, read_frame_encode _ _ h2, read_frame_encode _ _ h3,
    read_frame_encode _ _ h4, read_frame_encode _ _ h5, read_frame_encode _ _ h6,
    List.drop_one, List.tail_cons, List.nil_append]

/-- C3: SSH blob decoding is a strict inverse of encoding: decoding the
frame-encoded request reproduces every field exactly, and appending any
extra trailing byte to the encoded blob makes decoding fail (exact
consumption, not mere prefix parsing). -/
theorem parse_ssh_blob_strict_inverse (r : SSHAuthRequest) (m s : Nat)
    (h1 : r.nonce.length < 4294967296) (h2 : r.user.length < 4294967296)
    (h3 : r.conn.length < 4294967296) (h4 : r.auth.length < 4294967296)
    (h5 : r.key_type.length < 4294967296) (h6 : r.public_key.length < 4294967296) :
    _parse_ssh_blob (encode_ssh_blob r m s) = some r ∧
    ∀ x : Nat, _parse_ssh_blob (encode_ssh_blob r m s ++ [x]) = none := by
  constructor
  · have haux := parse_encode_aux r m s [] h1 h2 h3 h4 h5 h6
    rw [List.append_nil] at haux
    simpa using haux
  · intro x
    have haux := parse_encode_aux r m s [x] h1 h2 h3 h4 h5 h6
    simpa using haux

/-- Witness for `parse_ssh_blob_strict_inverse` on a small concrete
request with the reserved bytes of the protocol (50 and 1). -/
theorem parse_ssh_blob_strict_inverse_witness :
    _parse_ssh_blob (encode_ssh_blob ⟨[9], [117], [99], [112], [107], [1, 2, 3]⟩ 50 1) =
      some ⟨[9], [117], [99], [112], [107], [1, 2, 3]⟩ ∧
    _parse_ssh_blob (encode_ssh_blob ⟨[9], [117], [99], [112], [107], [1, 2, 3]⟩ 50 1 ++ [0]) =
      none := by
  have h := parse_ssh_blob_strict_inverse ⟨[9], [117], [99], [112], [107], [1, 2, 3]⟩ 50 1
    (by decide) (by decide) (by decide) (by decide) (by decide) (by decide)
  exact ⟨h.1, h.2 0⟩

/-- C2: the sign-request derivation: the payload is the blob followed by
the raw 32 bytes of SHA-256(label) with no curve-indicator prefix; the
digest of that payload is exactly 32 bytes (the assert) and the displayed
confirmation digits are `get_button` at digest offsets 0, 15, 31; and
`get_button` maps every byte into {1,..,5} with the spec's sample values
f(5)=1, f(6)=2, f(0)=1, f(255)=1, f(10)=1, f(11)=2. -/
theorem sign_request_derivation (sha : List Nat → List Nat) (label blob : List Nat)
    (hbytes : ∀ b ∈ sha label, b < 256) :
    sign_payload sha label blob = some (blob ++ sha label) ∧
    (∀ reads m, _parse_ssh_blob blob = some m →
      (sha (blob ++ sha label)).length = 32 →
      (sign_ssh_challenge sha label blob reads).1 =
        [.send (blob ++ sha label),
         .display (challenge_digits (sha (blob ++ sha label)))]) ∧
    (∀ b : Nat, 1 ≤ get_button b ∧ get_button b ≤ 5) ∧
    get_button 5 = 1 ∧ get_button 6 = 2 ∧ get_button 0 = 1 ∧
    get_button 255 = 1 ∧ get_button 10 = 1 ∧ get_button 11 = 2 := by
  have hdec : hexDecode (hexEncode (sha label)) = some (sha label) :=
    hexDecode_hexEncode _ hbytes
  refine ⟨?_, ?_, ?_, by decide, by decide, by decide, by decide, by decide, by decide⟩
  · unfold sign_payload
    rw [hdec]
    rfl
  · intro reads m hm hd
    unfold sign_ssh_challenge
    rw [hm, hdec]
    simp only [hd, if_pos]
  · intro b
    unfold get_button
    by_cases hb : b < 6
    · rw [if_pos hb]
      omega
    · rw [if_neg hb]
      have := Nat.mod_lt b (show 0 < 5 by omega)
      omega

/-- Witness for `sign_request_derivation`: a dummy 32-byte digest function
and the encoded empty-fields request as blob. -/
theorem sign_request_derivation_witness :
    sign_payload (fun _ => List.replicate 32 3) []
        (encode_ssh_blob ⟨[], [], [], [], [], []⟩ 50 1) =
      some (encode_ssh_blob ⟨[], [], [], [], [], []⟩ 50 1 ++ List.replicate 32 3) ∧
    (sign_ssh_challenge (fun _ => List.replicate 32 3) []
        (encode_ssh_blob ⟨[], [], [], [], [], []⟩ 50 1) (fun _ => [])).1 =
      [.send (encode_ssh_blob ⟨[], [], [], [], [], []⟩ 50 1 ++ List.replicate 32 3),
       .display (challenge_digits (List.replicate 32 3))] := by
  have h := sign_request_derivation (fun _ => List.replicate 32 3) []
    (encode_ssh_blob ⟨[], [], [], [], [], []⟩ 50 1) (by decide)
  exact ⟨h.1, h.2.1 (fun _ => []) ⟨[], [], [], [], [], []⟩ (by decide) (by decide)⟩

theorem poll_sign_none (reads : Nat → List Nat) :
    ∀ a i, (∀ k, k < a → (reads (i + k)).length < 60) → poll_sign reads i a = none := by
  intro a
  induction a with
  | zero => intro i _; rfl
  | succ n ih =>
    intro i h
    unfold poll_sign
    have h0 := h 0 (by omega)
    rw [Nat.add_zero] at h0
    rw [if_neg (by omega)]
    exact ih (i + 1) (fun k hk => by
      have hk1 := h (k + 1) (by omega)
      have heq : i + (k + 1) = i + 1 + k := by omega
      rw [heq] at hk1
      exact hk1)

theorem poll_sign_first (reads : Nat → List Nat) :
    ∀ a i k, k < a → 60 ≤ (reads (i + k)).length →
      (∀ j, j < k → (reads (i + j)).length < 60) →
      poll_sign reads i a = some (pad64 (reads (i + k))) := by
  intro a
  induction a with
  | zero => intro i k hk; omega
  | succ n ih =>
    intro i k hk hlen hj
    unfold poll_sign
    cases k with
    | zero =>
      rw [Nat.add_zero] at hlen
      rw [if_pos hlen, Nat.add_zero]
    | succ k' =>
      have h0 := hj 0 (by omega)
      rw [Nat.add_zero] at h0
      rw [if_neg (by omega)]
      have heq : i + (k' + 1) = i + 1 + k' := by omega
      rw [heq] at hlen
      have hrec := ih (i + 1) k' (by omega) hlen
        (fun j hjlt => by
          have hj1 := hj (j + 1) (by omega)
          have heq2 : i + (j + 1) = i + 1 + j := by omega
          rw [heq2] at hj1
          exact hj1)
      rw [hrec, heq]

/-- C7: the signing poll is bounded by 10 attempts: the signature result
of `sign_ssh_challenge` is the poll outcome (or the operation already
failed); when no response of at least 60 bytes arrives in the 10 attempts
the poll fails (`none`, the raised exception); and the first response of
length at least 60 — at most the 64 read bytes — is zero-padded to
exactly 64 bytes and returned. -/
theorem sign_poll_bounded (reads : Nat → List Nat) :
    (∀ sha label blob, (sign_ssh_challenge sha label blob reads).2 = poll_sign reads 0 10 ∨
      (sign_ssh_challenge sha label blob reads).2 = none) ∧
    ((∀ i, i < 10 → (reads i).length < 60) → poll_sign reads 0 10 = none) ∧
    (∀ i, i < 10 → 60 ≤ (reads i).length → (reads i).length ≤ 64 →
      (∀ j, j < i → (reads j).length < 60) →
      poll_sign reads 0 10 = some (pad64 (reads i)) ∧ (pad64 (reads i)).length = 64) := by
  refine ⟨?_, ?_, ?_⟩
  · intro sha label blob
    unfold sign_ssh_challenge
    cases _parse_ssh_blob blob with
    | none => exact Or.inr rfl
    | some m =>
      cases hexDecode (hexEncode (sha label)) with
      | none => exact Or.inr rfl
      | some d32 =>
        dsimp only
        by_cases hd : (sha (blob ++ d32)).length = 32
        · rw [if_pos hd]
          exact Or.inl rfl
        · rw [if_neg hd]
          exact Or.inr rfl
  · intro h
    exact poll_sign_none reads 10 0 (fun k hk => by simpa using h k hk)
  · intro i hi hge hle hj
    refine ⟨?_, ?_⟩
    · have := poll_sign_first reads 10 0 i hi (by simpa using hge)
        (fun j hjlt => by simpa using hj j hjlt)
      simpa using this
    · unfold pad64
      simp only [List.length_append, List.length_replicate]
      omega

/-- Witness for `sign_poll_bounded`: a transport whose first response is
60 bytes of ones. -/
theorem sign_poll_bounded_witness :
    poll_sign (fun _ => List.replicate 60 1) 0 10 =
      some (pad64 (List.replicate 60 1)) ∧
    (pad64 (List.replicate 60 1)).length = 64 := by
  have h := (sign_poll_bounded (fun _ => List.replicate 60 1)).2.2 0 (by omega)
    (by decide) (by decide) (fun j hj => absurd hj (by omega))
  exact h

/-- C10: `sign_ssh_challenge` decodes the SSH blob before any device
interaction: on a malformed blob the operation fails with an empty
interaction trace — nothing is sent, no confirmation code is displayed,
no poll happens. -/
theorem sign_malformed_blob_no_device (sha : List Nat → List Nat) (label blob : List Nat)
    (reads : Nat → List Nat) (h : _parse_ssh_blob blob = none) :
    sign_ssh_challenge sha label blob reads = ([], none) := by
  unfold sign_ssh_challenge
  rw [h]

/-- Witness for `sign_malformed_blob_no_device`: the one-byte blob `[0]`
is a truncated frame. -/
theorem sign_malformed_blob_no_device_witness :
    sign_ssh_challenge (fun _ => List.replicate 32 3) [] [0] (fun _ => []) = ([], none) :=
  sign_malformed_blob_no_device (fun _ => List.replicate 32 3) [] [0] (fun _ => [])
    (by decide)

/-- C6: the connect-time drain loop is dead code: `empty` is initialised
to the truthy `'a'`, so the `while not empty` guard is false on entry and
`__enter__` performs exactly one transport read for every stream — stale
buffered reads beyond the first are never drained. -/
theorem client_enter_single_read (stream : Nat → String) (fuel : Nat) :
    client_enter stream fuel = (1, "a") := by
  cases fuel with
  | zero => rfl
  | succ n =>
    unfold client_enter enter_while
    rw [if_neg (by decide : ¬ ("a" : String) = "")]

theorem keepTruthy_ne_some_empty (v : Option (List Char)) : keepTruthy v ≠ some "" := by
  match v with
  | none => simp [keepTruthy]
  | some [] => simp [keepTruthy]
  | some (c :: cs) =>
    simp only [keepTruthy, ne_eq, Option.some.injEq]
    intro hcontra
    have hdata := congrArg String.data hcontra
    simp at hdata

/-- C8: a parsed identity contains no empty and no null placeholder field
(only groups captured non-empty are kept), and the identity string
`"alice@example.com:22/repo"` parses to user `alice`, host `example.com`,
port `22`, path `/repo`, with no proto field. -/
theorem string_to_identity_fields (s : String) (id : Identity)
    (h : string_to_identity s = some id) :
    (id.proto ≠ some "" ∧ id.user ≠ some "" ∧ id.host ≠ some "" ∧
     id.port ≠ some "" ∧ id.path ≠ some "") ∧
    (s = "alice@example.com:22/repo" →
      id = ⟨none, some "alice", some "example.com", some "22", some "/repo"⟩) := by
  obtain ⟨m, _hm, hid⟩ := Option.map_eq_some'.mp h
  constructor
  · rw [← hid]
    exact ⟨keepTruthy_ne_some_empty _, keepTruthy_ne_some_empty _, keepTruthy_ne_some_empty _,
           keepTruthy_ne_some_empty _, keepTruthy_ne_some_empty _⟩
  · intro hs
    rw [hs] at h
    have hconc : string_to_identity "alice@example.com:22/repo" =
        some ⟨none, some "alice", some "example.com", some "22", some "/repo"⟩ := by decide
    rw [hconc] at h
    exact (Option.some.inj h).symm

/-- Witness for `string_to_identity_fields` at the spec's end-to-end
identity string. -/
theorem string_to_identity_fields_witness :
    (⟨none, some "alice", some "example.com", some "22", some "/repo"⟩ : Identity).user ≠
      some "" ∧
    (⟨none, some "alice", some "example.com", some "22", some "/repo"⟩ : Identity) =
      ⟨none, some "alice", some "example.com", some "22", some "/repo"⟩ := by
  have h := string_to_identity_fields "alice@example.com:22/repo"
    ⟨none, some "alice", some "example.com", some "22", some "/repo"⟩ (by decide)
  exact ⟨h.1.2.1, h.2 rfl⟩

theorem orElseO_isSome {α : Type} (present fallback : Option α)
    (h : fallback.isSome) : (orElseO present fallback).isSome := by
  cases present with
  | some r => rfl
  | none => exact h

theorem firstSome_isSome_of_mem {α : Type} (ks : List Nat) (f : Nat → Option α) (k : Nat)
    (hk : k ∈ ks) (hf : (f k).isSome) : (firstSome ks f).isSome := by
  induction ks with
  | nil => cases hk
  | cons a rest ih =>
    unfold firstSome
    cases hfa : f a with
    | some v => rfl
    | none =>
      rcases List.mem_cons.mp hk with h1 | h2
      · rw [← h1] at hfa
        rw [hfa] at hf
        simp at hf
      · exact ih h2

/-- C9 counterexample: the anchored pattern cannot match `"\na"` (no piece
of the pattern matches the leading newline and `$` matches only at the
end), so `string_to_identity` produces no result — in the source,
`m.groupdict()` raises on the failed match. -/
theorem string_to_identity_newline_counterexample :
    string_to_identity "\na" = none := by decide

/-- C9 amended: identity parsing is total on every input string that
contains no newline: every component of the anchored pattern is optional
and `host` accepts the empty match, so `string_to_identity` returns a
result; an input with a newline (other than a single trailing one) can
fail to match, and then `string_to_identity` fails — a failure path that
exists even though the permissive grammar makes it unreachable for
newline-free input. -/
theorem string_to_identity_total_no_newline (s : String)
    (h : ∀ c ∈ s.toList, c ≠ '\n') :
    (string_to_identity s).isSome := by
  have hall : s.toList.takeWhile dotChar = s.toList := by
    rw [List.takeWhile_eq_self_iff]
    intro x hx
    simpa [dotChar] using h x hx
  have hport : tryPort ([] : List Char) = some (none, none) := rfl
  have hhost : (tryHost s.toList).isSome := by
    unfold tryHost lazyKs
    apply firstSome_isSome_of_mem _ _ s.toList.length
    · rw [hall]
      exact List.mem_range.mpr (by omega)
    · rw [List.drop_length, hport]
      rfl
  have huser : (tryUser s.toList).isSome := by
    unfold tryUser
    apply orElseO_isSome
    rw [Option.isSome_map']
    exact hhost
  have hmatch : (_identity_regexp_match s.toList).isSome := by
    unfold _identity_regexp_match
    apply orElseO_isSome
    rw [Option.isSome_map']
    exact huser
  unfold string_to_identity
  rw [Option.isSome_map']
  exact hmatch

/-- Witness for `string_to_identity_total_no_newline` at the empty
string. -/
theorem string_to_identity_total_no_newline_witness :
    (string_to_identity "").isSome :=
  string_to_identity_total_no_newline "" (by decide)

end OnlyKeyAgent
